import Mathlib

/-!
Verification of the process-lifecycle engine of the whtmp repository.

The repository ships two implementations of the monitoring engine:
  * `src/gui.py`  (class ProcessMonitorGUI, tkinter front end), and
  * `src/main.py` (classes ProcessMonitor / ModernProcessMonitorApp, flet front end).
Both are embedded below, in namespaces `Gui` and `Main` respectively.

Modelling conventions, used throughout:
  * Wall-clock timestamps (datetime.now, time.time, create_time) are integers,
    read as microseconds since the epoch; datetime subtraction is exact integer
    subtraction, matching the exact microsecond resolution of Python datetime.
  * All datetime.now and time.time calls inside one reconciliation cycle are
    modelled as returning one common tick timestamp `now`.
  * A Python dict is an insertion-ordered association list; assignment replaces
    the value in place when the key is present and appends otherwise.
  * The OS enumeration (psutil.process_iter) is an input: `none` models the
    whole enumeration call raising, `some entries` the successfully read
    per-process info dicts.  An individual process that vanished or denied
    access between enumeration and info read is skipped by both sources
    (except-continue), hence modelled as simply absent from `entries`.
  * The JSON layer (json.dump / json.load) is modelled by an explicit `Json`
    value tree; a file on disk is `Option Json` (none = file absent).
-/

/-- A Python dict with decidable keys, as an insertion-ordered association
list.  `dictSet` is `d[k] = v`: replace in place when present, else append. -/
def dictSet {κ α : Type} [DecidableEq κ] (l : List (κ × α)) (k : κ) (v : α) :
    List (κ × α) :=
  match l with
  | [] => [(k, v)]
  | (k', v') :: rest =>
    if k' = k then (k, v) :: rest else (k', v') :: dictSet rest k v

/-- Python dict lookup `d.get(k)`: first (and, with unique keys, only) match. -/
def dictGet? {κ α : Type} [DecidableEq κ] (l : List (κ × α)) (k : κ) : Option α :=
  match l with
  | [] => none
  | (k', v') :: rest => if k' = k then some v' else dictGet? rest k

/-- Python `del d[k]`. -/
def dictDel {κ α : Type} [DecidableEq κ] (l : List (κ × α)) (k : κ) :
    List (κ × α) :=
  l.filter (fun kv => kv.1 ≠ k)

/-- The keys of a dict, in insertion order. -/
def dictKeys {κ α : Type} (l : List (κ × α)) : List κ := l.map Prod.fst

/-- One entry of the OS process table as read through
psutil.process_iter attrs pid, name, create_time (the further cpu and memory
attrs read by src/main.py are display-only floats and are not modelled;
no claim mentions them). -/
structure ProcEntry where
  pid : Int
  name : String
  create_time : Int
  deriving Repr, DecidableEq

/-- A minimal JSON value tree standing for what json.dump writes and json.load
returns.  Timestamps that the sources store as ISO strings are kept as their
integer microsecond value (`jnum`); the ISO rendering is injective, so nothing
is lost for equality statements. -/
inductive Json where
  | jnum (n : Int)
  | jstr (s : String)
  | jarr (l : List Json)
  | jobj (fields : List (String × Json))
  deriving Repr

/-- Field access `data.get(key)` on a JSON object; none when the value is not
an object or has no such field. -/
def jGet : Json → String → Option Json
  | .jobj fields, k => dictGet? fields k
  | _, _ => none

/-- Python str.startswith: prefix test, written over the character list so
that the kernel can evaluate it on literals. -/
def strStartsWith (s pre : String) : Bool :=
  pre.data.isPrefixOf s.data

/-- Strict lexicographic order on strings by character code (ascending), the
order the claims mean by ascending lexicographic name order. -/
def strLexLt (a b : String) : Bool :=
  go a.data b.data
where
  go : List Char → List Char → Bool
    | [], [] => false
    | [], _ :: _ => true
    | _ :: _, [] => false
    | a :: as, b :: bs => if a = b then go as bs else decide (a.val < b.val)

namespace Gui

/-- The per-process info dict built by ProcessMonitorGUI.get_current_processes
(src/gui.py lines 303-307): pid, create_time, first_seen = time.time(). -/
structure SnapInfo where
  pid : Int
  create_time : Int
  first_seen : Int
  deriving Repr, DecidableEq

/-- The filter condition of src/gui.py lines 298-301: truthy (non-empty) name,
name not starting with System, not starting with Registry, pid strictly
positive. -/
def passes (e : ProcEntry) : Bool :=
  e.name != "" && !(strStartsWith e.name "System") &&
    !(strStartsWith e.name "Registry") && decide (0 < e.pid)

/-- ProcessMonitorGUI.get_current_processes (src/gui.py lines 288-317):
builds a name-keyed dict over the enumeration, keeping entries that pass the
filter (later same-named entries overwrite earlier ones); returns the empty
dict when the whole enumeration raised (lines 315-317). -/
def get_current_processes (raw : Option (List ProcEntry)) (t : Int) :
    List (String × SnapInfo) :=
  match raw with
  | none => []
  | some entries =>
    entries.foldl
      (fun d e => if passes e then dictSet d e.name ⟨e.pid, e.create_time, t⟩ else d)
      []

/-- A value of running_processes in src/gui.py (lines 379-383): start_time is
the wall clock when the engine first observed the name, pid and create_time
are copied from the snapshot info of that first observation. -/
structure TrackedInfo where
  start_time : Int
  pid : Int
  create_time : Int
  deriving Repr, DecidableEq

/-- A process_record appended to process_history (src/gui.py lines 401-408).
duration_seconds is int(duration.total_seconds()), i.e. the microsecond
difference divided by 1000000 rounding toward zero; the duration_readable
display string renders the same truncated value and is not modelled (no claim
reads it). -/
structure Record where
  process_name : String
  start_time : Int
  end_time : Int
  duration_seconds : Int
  pid : Int
  deriving Repr, DecidableEq

/-- The record built when a tracked process disappears (src/gui.py lines
396-408): end_time = now, duration = end_time - start_time, stored truncated
to whole seconds. -/
def mkRecord (name : String) (info : TrackedInfo) (now : Int) : Record :=
  ⟨name, info.start_time, now, Int.tdiv (now - info.start_time) 1000000, info.pid⟩

/-- The mutable engine state of ProcessMonitorGUI: the live name-keyed table
running_processes and the in-memory history list process_history. -/
structure GuiState where
  running : List (String × TrackedInfo)
  history : List Record
  deriving Repr, DecidableEq

/-- Phase 1 of one monitoring cycle (src/gui.py lines 376-389): walk the
snapshot; every name not yet tracked gets a fresh TrackedInfo with
start_time = now, and a Started log line carrying name and pid. -/
def phase1 (now : Int) :
    List (String × SnapInfo) → List (String × TrackedInfo) →
    List (String × TrackedInfo) × List (String × Int)
  | [], running => (running, [])
  | (name, info) :: rest, running =>
    if (dictGet? running name).isSome then phase1 now rest running
    else
      let out := phase1 now rest (dictSet running name ⟨now, info.pid, info.create_time⟩)
      (out.1, (name, info.pid) :: out.2)

/-- Phase 2 of one monitoring cycle (src/gui.py lines 391-417): walk the live
table; every tracked name absent from the snapshot produces one Record. -/
def phase2 (now : Int) (current : List (String × SnapInfo)) :
    List (String × TrackedInfo) → List Record
  | [] => []
  | (name, info) :: rest =>
    if (dictGet? current name).isSome then phase2 now current rest
    else mkRecord name info now :: phase2 now current rest

/-- The result of one cycle: new state, Started log lines (name, pid), and the
records appended to history (whose names the cycle also logs as Ended and
deletes from the live table). -/
structure CycleOut where
  state : GuiState
  started : List (String × Int)
  endedRecords : List Record
  deriving Repr, DecidableEq

/-- One iteration of the ProcessMonitorGUI.monitor_processes loop body
(src/gui.py lines 373-425): sample, add new names, close disappeared names,
delete them from the live table, append their records to history. -/
def monitorCycle (st : GuiState) (raw : Option (List ProcEntry)) (now : Int) :
    CycleOut :=
  let current := get_current_processes raw now
  let p1 := phase1 now current st.running
  let recs := phase2 now current p1.1
  let endedNames := recs.map (·.process_name)
  let running2 := endedNames.foldl (fun r n => dictDel r n) p1.1
  ⟨⟨running2, st.history ++ recs⟩, p1.2, recs⟩

end Gui

/-- A Started or Ended transition as logged by either engine; Started carries
name and pid, Ended carries name and the recorded duration value. -/
inductive Ev where
  | started (name : String) (pid : Int)
  | ended (name : String) (duration : Int)
  deriving Repr, DecidableEq

namespace Gui

/-- The log lines of one cycle, in emission order: all Started lines of phase 1
precede all Ended lines of phase 2 (src/gui.py lines 388, 416). -/
def cycleEvents (c : CycleOut) : List Ev :=
  c.started.map (fun p => .started p.1 p.2) ++
    c.endedRecords.map (fun r => .ended r.process_name r.duration_seconds)

/-- Run the monitor over a script of cycles (enumeration result and tick
timestamp per cycle), collecting the final state and the full event trace. -/
def runCycles : GuiState → List (Option (List ProcEntry) × Int) →
    GuiState × List Ev
  | st, [] => (st, [])
  | st, (raw, now) :: rest =>
    let c := monitorCycle st raw now
    let out := runCycles c.state rest
    (out.1, cycleEvents c ++ out.2)

/-- The JSON object form of one history record as it sits inside
process_history (src/gui.py lines 401-408): in memory the source keeps plain
dicts, which json.dump writes verbatim.  Timestamps are the microsecond values
behind the ISO strings (see file header). -/
def encodeRecord (r : Record) : Json :=
  .jobj [("process_name", .jstr r.process_name),
         ("start_time", .jnum r.start_time),
         ("end_time", .jnum r.end_time),
         ("duration_seconds", .jnum r.duration_seconds),
         ("pid", .jnum r.pid)]

/-- Read one raw history dict back into a typed Record, inverting
encodeRecord; the source never does this explicitly (it keeps raw dicts), the
decoder only serves to state that no field value is lost on a round trip. -/
def decodeRecord (j : Json) : Option Record :=
  match jGet j "process_name", jGet j "start_time", jGet j "end_time",
      jGet j "duration_seconds", jGet j "pid" with
  | some (.jstr n), some (.jnum s), some (.jnum e), some (.jnum d), some (.jnum p) =>
    some ⟨n, s, e, d, p⟩
  | _, _, _, _, _ => none

/-- ProcessMonitorGUI.save_log (src/gui.py lines 82-92): the JSON document
written to process_log.json. -/
def save_log (history : List Record) (now : Int) : Json :=
  .jobj [("last_updated", .jnum now),
         ("process_history", .jarr (history.map encodeRecord))]

/-- ProcessMonitorGUI.load_existing_log (src/gui.py lines 71-80): absent file
leaves the fresh history empty; otherwise the process_history field is taken
as is (the source keeps the raw parsed dicts, so the result is the raw JSON
list; a present non-list value would poison later iteration in Python and is
collapsed to the empty list here, a case no claim touches). -/
def load_existing_log (file : Option Json) : List Json :=
  match file with
  | none => []
  | some j =>
    match jGet j "process_history" with
    | some (.jarr l) => l
    | _ => []

end Gui

namespace Gui

/-- The application-level state relevant to start/stop: the monitoring flag,
the engine state, and the persisted process_log.json file. -/
structure GuiApp where
  monitoring : Bool
  state : GuiState
  file : Option Json
  deriving Repr

/-- ProcessMonitorGUI.stop_monitoring (src/gui.py lines 352-366): clear the
monitoring flag (the background loop exits at its next flag check) and call
save_log; the live table and the in-memory history are not touched. -/
def stop_monitoring (app : GuiApp) (now : Int) : GuiApp :=
  ⟨false, app.state, some (save_log app.state.history now)⟩

/-- ProcessMonitorGUI.on_closing (src/gui.py lines 675-687): stop if
monitoring, then save_log once more. -/
def on_closing (app : GuiApp) (now : Int) : GuiApp :=
  let a := if app.monitoring then stop_monitoring app now else app
  ⟨a.monitoring, a.state, some (save_log a.state.history now)⟩

/-- The per-name aggregate of generate_statistics (src/gui.py lines 533-543). -/
structure NameStats where
  count : Int
  total_duration : Int
  first_seen : Int
  last_seen : Int
  deriving Repr, DecidableEq

/-- One step of the aggregation loop (src/gui.py lines 529-544): insert a
default entry on first sight of a name, then bump count, add the record
duration, refresh last_seen. -/
def statsStep (acc : List (String × NameStats)) (r : Record) :
    List (String × NameStats) :=
  let s := match dictGet? acc r.process_name with
    | some s => s
    | none => ⟨0, 0, r.start_time, r.end_time⟩
  dictSet acc r.process_name
    ⟨s.count + 1, s.total_duration + r.duration_seconds, s.first_seen, r.end_time⟩

/-- The process_stats dict of generate_statistics, keyed by name in order of
first appearance in the history. -/
def process_stats (h : List Record) : List (String × NameStats) :=
  h.foldl statsStep []

/-- Insert one entry into a list already sorted descending by total_duration,
after all entries with a greater-or-equal total: together with the fold below
this is exactly the Python builtin sorted with key total_duration and
reverse set, which sorts descending and keeps entries with equal keys in
their original relative order (stable sort). -/
def insortDesc (x : String × NameStats) :
    List (String × NameStats) → List (String × NameStats)
  | [] => [x]
  | y :: ys =>
    if y.2.total_duration < x.2.total_duration then x :: y :: ys
    else y :: insortDesc x ys

/-- The sorted_processes list of generate_statistics (src/gui.py lines
547-549); the display then shows its first 15 entries, a prefix, so every
ordering fact below transfers to the shown top-N listing. -/
def sorted_processes (h : List Record) : List (String × NameStats) :=
  (process_stats h).foldl (fun acc x => insortDesc x acc) []

/-- The control skeleton of the ProcessMonitorGUI.monitor_processes while
loop (src/gui.py lines 371-432): one input pair per potential iteration,
first component the value of self.monitoring at the loop head, second
whether the body raised this iteration.  The except arm logs, sleeps and
loops on, so a raising body still counts as one completed iteration and the
loop only stops on a cleared flag.  Returns the number of iterations run. -/
def guiLoop : List (Bool × Bool) → Nat
  | [] => 0
  | (flag, _raised) :: rest => if flag then 1 + guiLoop rest else 0

/-- Claim-side reading of the scheduler contract: keep iterating exactly
while the monitoring flag is set, whatever the tick outcomes. -/
def ticksWhileFlagSet : List (Bool × Bool) → Nat
  | [] => 0
  | (flag, _) :: rest => if flag then 1 + ticksWhileFlagSet rest else 0

end Gui

namespace Main

/-- ProcessMonitor.get_current_processes (src/main.py lines 95-113): append
every successfully read entry, with no name or pid filtering; when the whole
enumeration call raises, the except arm returns the list built so far,
modelled as the empty list. -/
def get_current_processes (raw : Option (List ProcEntry)) : List ProcEntry :=
  match raw with
  | none => []
  | some entries => entries

/-- A value of ProcessMonitor.running_processes (src/main.py lines 125-129):
keyed by pid; start_time is the wall clock at first observation (the source
comments: use current time instead of system create_time). -/
structure MainTracked where
  name : String
  start_time : Int
  pid : Int
  deriving Repr, DecidableEq

/-- A history record of ProcessMonitor (src/main.py lines 139-145); duration
there is str(end_time - start_time), the exact timedelta rendered as a
string, kept here as the exact microsecond difference (the rendering is
injective). -/
structure MainRecord where
  name : String
  pid : Int
  start_time : Int
  end_time : Int
  duration : Int
  deriving Repr, DecidableEq

/-- The mutable engine state of ProcessMonitor: the pid-keyed live table and
the history list. -/
structure MainState where
  running : List (Int × MainTracked)
  history : List MainRecord
  deriving Repr, DecidableEq

/-- The new-pid loop of update_processes (src/main.py lines 121-130): every
entry whose pid is not yet tracked creates a tracking record under that pid
(the source iterates the set current_pids minus previous_pids and takes the
first entry of each new pid; Python set order is unspecified, so the model
fixes first-appearance order, which no settled statement depends on). -/
def addNew (now : Int) :
    List ProcEntry → List (Int × MainTracked) →
    List (Int × MainTracked) × List Ev
  | [], running => (running, [])
  | e :: rest, running =>
    if (dictGet? running e.pid).isSome then addNew now rest running
    else
      let out := addNew now rest (dictSet running e.pid ⟨e.name, now, e.pid⟩)
      (out.1, .started e.name e.pid :: out.2)

/-- The ended-pid loop of update_processes (src/main.py lines 132-148): every
previously tracked pid absent from the snapshot pid set yields one history
record with end_time = now and the exact duration now - start_time. -/
def endTracked (now : Int) (currentPids : List Int) :
    List (Int × MainTracked) → List MainRecord × List Ev
  | [] => ([], [])
  | (pid, info) :: rest =>
    let out := endTracked now currentPids rest
    if currentPids.contains pid then out
    else
      (⟨info.name, pid, info.start_time, now, now - info.start_time⟩ :: out.1,
       .ended info.name (now - info.start_time) :: out.2)

/-- ProcessMonitor.update_processes without its final save_data call
(src/main.py lines 115-148): add new pids, close ended pids, delete them from
the live table; the ended-pid scan runs over the pids tracked before this
cycle, all of whose new pids are in the snapshot anyway. -/
def update (st : MainState) (raw : Option (List ProcEntry)) (now : Int) :
    MainState × List Ev :=
  let current := get_current_processes raw
  let a := addNew now current st.running
  let e := endTracked now (current.map (·.pid)) st.running
  let endedPids := e.1.map (·.pid)
  let running2 := endedPids.foldl (fun r p => dictDel r p) a.1
  (⟨running2, st.history ++ e.1⟩, a.2 ++ e.2)

/-- The on-disk state touched by ProcessMonitor persistence: the text log at
settings log_directory/log_filename, and the legacy JSON DATA_FILE
process_log.json.  The text table is kept as its row data. -/
structure TableRow where
  name : String
  pid : Int
  start_time : Int
  end_time : Int
  duration : Int
  deriving Repr, DecidableEq

/-- The durable files ProcessMonitor reads and writes. -/
structure MainFS where
  logFile : Option (List TableRow)
  dataFile : Option Json
  deriving Repr

/-- ProcessMonitor.save_data (src/main.py lines 54-93): rewrite the text log
with one row per history record, the name truncated to 29 characters;
DATA_FILE is never written. -/
def save_data (fs : MainFS) (history : List MainRecord) : MainFS :=
  ⟨some (history.map (fun r =>
      ⟨r.name.take 29, r.pid, r.start_time, r.end_time, r.duration⟩)),
   fs.dataFile⟩

/-- ProcessMonitor.load_data (src/main.py lines 24-52): whether or not the
text log exists, the history is read from the JSON DATA_FILE history field
when that file exists, and stays empty otherwise; the text log is never
parsed (the source comments that text parsing is left to future versions).
As in the gui loader the raw JSON list is returned. -/
def load_data (fs : MainFS) : List Json :=
  match fs.logFile with
  | some _ =>
    match fs.dataFile with
    | some j =>
      match jGet j "history" with
      | some (.jarr l) => l
      | _ => []
    | none => []
  | none =>
    match fs.dataFile with
    | some j =>
      match jGet j "history" with
      | some (.jarr l) => l
      | _ => []
    | none => []

/-- What load_data recovers, as a function of the JSON DATA_FILE alone. -/
def dataHistory (dataFile : Option Json) : List Json :=
  match dataFile with
  | some j =>
    match jGet j "history" with
    | some (.jarr l) => l
    | _ => []
  | none => []

/-- ProcessMonitor.update_processes including its final save_data
(src/main.py lines 115-153). -/
def update_processes (st : MainState) (fs : MainFS)
    (raw : Option (List ProcEntry)) (now : Int) :
    MainState × MainFS × List Ev :=
  let u := update st raw now
  (u.1, save_data fs u.1.history, u.2)

/-- Run the flet engine over a script of cycles, collecting state, files and
the event trace. -/
def runCycles : MainState → MainFS → List (Option (List ProcEntry) × Int) →
    MainState × MainFS × List Ev
  | st, fs, [] => (st, fs, [])
  | st, fs, (raw, now) :: rest =>
    let u := update_processes st fs raw now
    let out := runCycles u.1 u.2.1 rest
    (out.1, out.2.1, u.2.2 ++ out.2.2)

/-- The application state relevant to stop: flag and files. -/
structure MainApp where
  is_monitoring : Bool
  fs : MainFS
  deriving Repr

/-- ModernProcessMonitorApp.stop_monitoring (src/main.py lines 807-811):
clear the flag and repaint the buttons; nothing is persisted. -/
def stop_monitoring (app : MainApp) : MainApp :=
  ⟨false, app.fs⟩

/-- The control skeleton of ModernProcessMonitorApp.monitor_loop (src/main.py
lines 879-888), same input convention as Gui.guiLoop: the except arm prints
the traceback and then breaks, so the first raising iteration is also the
last one even while the flag stays set. -/
def mainLoop : List (Bool × Bool) → Nat
  | [] => 0
  | (flag, raised) :: rest =>
    if flag then (if raised then 1 else 1 + mainLoop rest) else 0

end Main

/-- The name an event is about. -/
def evName : Ev → String
  | .started n _ => n
  | .ended n _ => n

/-- Scan the events concerning one name, starting from open-state `opn`
(true when a lifespan of that name is currently open): a Started event is
legal only when closed and opens, an Ended event only when open and closes;
returns the final open-state, or none as soon as the alternation is
violated.  Events about other names are skipped. -/
def altRun (name : String) : List Ev → Bool → Option Bool
  | [], opn => some opn
  | .started n _ :: rest, opn =>
    if n = name then (if opn then none else altRun name rest true)
    else altRun name rest opn
  | .ended n _ :: rest, opn =>
    if n = name then (if opn then altRun name rest false else none)
    else altRun name rest opn

namespace Gui

/-- Claim-side characterization of the sampler: the last enumerated entry
with the given name that passes the filter (later entries overwrite earlier
ones). -/
def lastPassingNamed (name : String) (entries : List ProcEntry) :
    Option ProcEntry :=
  entries.foldl (fun acc e => if passes e && e.name == name then some e else acc)
    none

end Gui

section DictLemmas

variable {κ α : Type} [DecidableEq κ]

theorem dictGet?_set_self (l : List (κ × α)) (k : κ) (v : α) :
    dictGet? (dictSet l k v) k = some v := by
  induction l with
  | nil => simp [dictSet, dictGet?]
  | cons hd tl ih =>
    obtain ⟨k₀, v₀⟩ := hd
    by_cases h : k₀ = k
    · simp [dictSet, dictGet?, h]
    · simp [dictSet, dictGet?, h, ih]

theorem dictGet?_set_ne (l : List (κ × α)) (k k' : κ) (v : α) (h : k' ≠ k) :
    dictGet? (dictSet l k v) k' = dictGet? l k' := by
  have h' : ¬ k = k' := fun e => h e.symm
  induction l with
  | nil => simp [dictSet, dictGet?, h']
  | cons hd tl ih =>
    obtain ⟨k₀, v₀⟩ := hd
    by_cases h₀ : k₀ = k
    · subst h₀
      simp [dictSet, dictGet?, h']
    · by_cases h₁ : k₀ = k'
      · simp [dictSet, dictGet?, h, h₀, h₁]
      · simp [dictSet, dictGet?, h, h₀, h₁, ih]

theorem mem_dictKeys_iff_isSome (l : List (κ × α)) (k : κ) :
    k ∈ dictKeys l ↔ (dictGet? l k).isSome := by
  induction l with
  | nil => simp [dictKeys, dictGet?]
  | cons hd tl ih =>
    obtain ⟨k₀, v₀⟩ := hd
    by_cases h : k₀ = k
    · simp [dictKeys, dictGet?, h]
    · have h' : ¬ k = k₀ := fun e => h e.symm
      simpa [dictKeys, dictGet?, h, h'] using ih

theorem dictKeys_set (l : List (κ × α)) (k : κ) (v : α) :
    dictKeys (dictSet l k v) =
      if k ∈ dictKeys l then dictKeys l else dictKeys l ++ [k] := by
  induction l with
  | nil => simp [dictSet, dictKeys]
  | cons hd tl ih =>
    obtain ⟨k₀, v₀⟩ := hd
    by_cases h : k₀ = k
    · subst h
      simp [dictSet, dictKeys]
    · have h' : ¬ k = k₀ := fun e => h e.symm
      by_cases hm : k ∈ tl.map Prod.fst
      · simp [dictSet, dictKeys, h, h', hm, List.mem_cons] at ih ⊢
        simp [ih]
      · simp [dictSet, dictKeys, h, h', hm, List.mem_cons] at ih ⊢
        simp [ih]

theorem dictKeys_set_nodup (l : List (κ × α)) (k : κ) (v : α)
    (h : (dictKeys l).Nodup) : (dictKeys (dictSet l k v)).Nodup := by
  rw [dictKeys_set]
  by_cases hm : k ∈ dictKeys l
  · simpa [hm] using h
  · rw [if_neg hm]
    simp [List.nodup_append, h, hm]

theorem mem_dictKeys_set (l : List (κ × α)) (k k' : κ) (v : α) :
    k' ∈ dictKeys (dictSet l k v) ↔ k' = k ∨ k' ∈ dictKeys l := by
  rw [dictKeys_set]
  by_cases hm : k ∈ dictKeys l
  · rw [if_pos hm]
    constructor
    · exact fun h => Or.inr h
    · rintro (rfl | h)
      · exact hm
      · exact h
  · rw [if_neg hm]
    simp [or_comm]

theorem dictGet?_del_ne (l : List (κ × α)) (k k' : κ) (h : k' ≠ k) :
    dictGet? (dictDel l k) k' = dictGet? l k' := by
  have h' : ¬ k = k' := fun e => h e.symm
  induction l with
  | nil => simp [dictDel, dictGet?]
  | cons hd tl ih =>
    obtain ⟨k₀, v₀⟩ := hd
    by_cases h₀ : k₀ = k
    · subst h₀
      simpa [dictDel, dictGet?, h'] using ih
    · by_cases h₁ : k₀ = k'
      · simp [dictDel, dictGet?, h, h', h₀, h₁]
      · simpa [dictDel, dictGet?, h, h', h₀, h₁] using ih

theorem foldl_dictDel_eq_filter (ks : List κ) (l : List (κ × α)) :
    ks.foldl (fun r n => dictDel r n) l =
      l.filter (fun kv => decide (kv.1 ∉ ks)) := by
  induction ks generalizing l with
  | nil => simp
  | cons k ks ih =>
    rw [List.foldl_cons, ih, dictDel, List.filter_filter]
    congr 1
    funext kv
    by_cases h1 : kv.1 = k <;> by_cases h2 : kv.1 ∈ ks <;> simp [h1, h2]

end DictLemmas

namespace Gui

theorem lastPassing_foldl_acc (name : String) :
    ∀ (l : List ProcEntry) (a : Option ProcEntry),
      l.foldl (fun acc e => if passes e && e.name == name then some e else acc) a =
        (match lastPassingNamed name l with
         | some e' => some e'
         | none => a) := by
  intro l
  induction l with
  | nil => intro a; simp [lastPassingNamed]
  | cons e l ih =>
    intro a
    have hlpn : lastPassingNamed name (e :: l) =
        l.foldl (fun acc e => if passes e && e.name == name then some e else acc)
          (if passes e && e.name == name then some e else none) := by
      simp [lastPassingNamed]
    rw [List.foldl_cons, hlpn]
    by_cases hc : passes e && e.name == name
    · rw [if_pos hc, if_pos hc, ih (some e)]
      cases hfold : lastPassingNamed name l <;> simp
    · rw [if_neg hc, if_neg hc, ih a, ih none]
      cases hfold : lastPassingNamed name l <;> simp

theorem snapshot_lookup_acc (t : Int) (name : String) :
    ∀ (entries : List ProcEntry) (d : List (String × SnapInfo)),
      dictGet?
        (entries.foldl
          (fun d e =>
            if passes e then dictSet d e.name ⟨e.pid, e.create_time, t⟩ else d)
          d) name =
      (match lastPassingNamed name entries with
       | some e => some (⟨e.pid, e.create_time, t⟩ : SnapInfo)
       | none => dictGet? d name) := by
  intro entries
  induction entries with
  | nil => intro d; simp [lastPassingNamed]
  | cons e rest ih =>
    intro d
    have hlpn : lastPassingNamed name (e :: rest) =
        rest.foldl (fun acc e => if passes e && e.name == name then some e else acc)
          (if passes e && e.name == name then some e else none) := by
      simp [lastPassingNamed]
    rw [List.foldl_cons, ih, hlpn,
      lastPassing_foldl_acc name rest (if passes e && e.name == name then some e else none)]
    cases hlast : lastPassingNamed name rest with
    | some e' => simp
    | none =>
      simp only []
      by_cases hp : passes e
      · by_cases hn : e.name = name
        · have hc : (passes e && e.name == name) = true := by simp [hp, hn]
          rw [if_pos hp, if_pos hc, hn, dictGet?_set_self]
        · have hc : (passes e && e.name == name) = false := by simp [hp, hn]
          rw [if_pos hp, hc]
          simp only [Bool.false_eq_true, if_false]
          exact dictGet?_set_ne d e.name name _ (fun h => hn h.symm)
      · have hc : (passes e && e.name == name) = false := by simp [hp]
        rw [if_neg hp, hc]
        simp only [Bool.false_eq_true, if_false]

theorem snapshot_lookup (entries : List ProcEntry) (t : Int) (name : String) :
    dictGet? (get_current_processes (some entries) t) name =
      (lastPassingNamed name entries).map
        (fun e => (⟨e.pid, e.create_time, t⟩ : SnapInfo)) := by
  have h := snapshot_lookup_acc t name entries []
  rw [get_current_processes]
  rw [h]
  cases lastPassingNamed name entries <;> simp [dictGet?]

theorem snapshot_keys_nodup (raw : Option (List ProcEntry)) (t : Int) :
    (dictKeys (get_current_processes raw t)).Nodup := by
  cases raw with
  | none => simp [get_current_processes, dictKeys]
  | some entries =>
    rw [get_current_processes]
    have h : ∀ (entries : List ProcEntry) (d : List (String × SnapInfo)),
        (dictKeys d).Nodup →
        (dictKeys
          (entries.foldl
            (fun d e =>
              if passes e then dictSet d e.name ⟨e.pid, e.create_time, t⟩ else d)
            d)).Nodup := by
      intro entries
      induction entries with
      | nil => intro d hd; simpa using hd
      | cons e rest ih =>
        intro d hd
        rw [List.foldl_cons]
        by_cases hp : passes e
        · rw [if_pos hp]
          exact ih _ (dictKeys_set_nodup _ _ _ hd)
        · rw [if_neg hp]
          exact ih _ hd
    exact h entries [] (by simp [dictKeys])

theorem lastPassingNamed_spec (name : String) :
    ∀ (entries : List ProcEntry) (e : ProcEntry),
      lastPassingNamed name entries = some e →
      passes e = true ∧ e.name = name ∧ e ∈ entries := by
  intro entries
  induction entries with
  | nil => intro e h; simp [lastPassingNamed] at h
  | cons e₀ rest ih =>
    intro e h
    have hlpn : lastPassingNamed name (e₀ :: rest) =
        rest.foldl (fun acc e => if passes e && e.name == name then some e else acc)
          (if passes e₀ && e₀.name == name then some e₀ else none) := by
      simp [lastPassingNamed]
    rw [hlpn, lastPassing_foldl_acc name rest
      (if passes e₀ && e₀.name == name then some e₀ else none)] at h
    cases hlast : lastPassingNamed name rest with
    | some e' =>
      rw [hlast] at h
      injection h with h
      subst h
      obtain ⟨h1, h2, h3⟩ := ih e' hlast
      exact ⟨h1, h2, List.mem_cons_of_mem _ h3⟩
    | none =>
      rw [hlast] at h
      by_cases hc : passes e₀ && e₀.name == name
      · rw [if_pos hc] at h
        cases h
        simp only [Bool.and_eq_true, beq_iff_eq] at hc
        exact ⟨hc.1, hc.2, List.mem_cons_self _ _⟩
      · rw [if_neg hc] at h
        cases h

theorem lastPassingNamed_isSome_iff (name : String) :
    ∀ (entries : List ProcEntry),
      (lastPassingNamed name entries).isSome = true ↔
      ∃ e ∈ entries, passes e = true ∧ e.name = name := by
  intro entries
  induction entries with
  | nil => simp [lastPassingNamed]
  | cons e₀ rest ih =>
    have hlpn : lastPassingNamed name (e₀ :: rest) =
        rest.foldl (fun acc e => if passes e && e.name == name then some e else acc)
          (if passes e₀ && e₀.name == name then some e₀ else none) := by
      simp [lastPassingNamed]
    rw [hlpn, lastPassing_foldl_acc name rest
      (if passes e₀ && e₀.name == name then some e₀ else none)]
    cases hlast : lastPassingNamed name rest with
    | some e' =>
      simp only [Option.isSome_some, true_iff]
      obtain ⟨h1, h2, h3⟩ := lastPassingNamed_spec name rest e' hlast
      exact ⟨e', List.mem_cons_of_mem _ h3, h1, h2⟩
    | none =>
      rw [hlast] at ih
      by_cases hc : passes e₀ && e₀.name == name
      · simp only [if_pos hc, Option.isSome_some, true_iff]
        simp only [Bool.and_eq_true, beq_iff_eq] at hc
        exact ⟨e₀, List.mem_cons_self _ _, hc.1, hc.2⟩
      · rw [if_neg hc]
        have hne : ¬ ∃ e ∈ e₀ :: rest, passes e = true ∧ e.name = name := by
          intro hex
          obtain ⟨e, hmem, hp, hn⟩ := hex
          rcases List.mem_cons.mp hmem with rfl | hmem'
          · exact hc (by simp [hp, hn])
          · have hbad : Option.isSome (none : Option ProcEntry) = true :=
              ih.mpr ⟨e, hmem', hp, hn⟩
            simp at hbad
        exact iff_of_false (by simp) hne

end Gui

section MoreDictLemmas

variable {κ α : Type} [DecidableEq κ]

theorem dictGet?_filter_not_mem (l : List (κ × α)) (ks : List κ) (k : κ)
    (hk : k ∉ ks) :
    dictGet? (l.filter (fun kv => decide (kv.1 ∉ ks))) k = dictGet? l k := by
  induction l with
  | nil => simp [dictGet?]
  | cons hd tl ih =>
    obtain ⟨k₀, v₀⟩ := hd
    by_cases h₀ : k₀ = k
    · subst h₀
      simp [dictGet?, hk]
    · by_cases hmem : k₀ ∈ ks
      · simpa [dictGet?, h₀, hmem] using ih
      · simpa [dictGet?, h₀, hmem] using ih

theorem dictGet?_filter_mem (l : List (κ × α)) (ks : List κ) (k : κ)
    (hk : k ∈ ks) :
    dictGet? (l.filter (fun kv => decide (kv.1 ∉ ks))) k = none := by
  induction l with
  | nil => simp [dictGet?]
  | cons hd tl ih =>
    obtain ⟨k₀, v₀⟩ := hd
    by_cases h₀ : k₀ = k
    · subst h₀
      simpa [dictGet?, hk] using ih
    · by_cases hmem : k₀ ∈ ks
      · simpa [dictGet?, h₀, hmem] using ih
      · simpa [dictGet?, h₀, hmem] using ih

theorem filter_key_eq_nil_of_not_mem (l : List (κ × α)) (k : κ)
    (h : k ∉ dictKeys l) :
    l.filter (fun kv => kv.1 == k) = [] := by
  induction l with
  | nil => simp
  | cons hd tl ih =>
    obtain ⟨k₀, v₀⟩ := hd
    simp only [dictKeys, List.map_cons, List.mem_cons, not_or] at h
    have h₀ : (k₀ == k) = false := by
      simpa using fun e => h.1 e.symm
    simp only [List.filter_cons, h₀, Bool.false_eq_true, if_false]
    exact ih (by simpa [dictKeys] using h.2)

theorem filter_key_eq_of_nodup (l : List (κ × α)) (k : κ)
    (hnd : (dictKeys l).Nodup) :
    l.filter (fun kv => kv.1 == k) =
      (match dictGet? l k with
       | some v => [(k, v)]
       | none => []) := by
  induction l with
  | nil => simp [dictGet?]
  | cons hd tl ih =>
    obtain ⟨k₀, v₀⟩ := hd
    simp only [dictKeys, List.map_cons, List.nodup_cons] at hnd
    by_cases h₀ : k₀ = k
    · subst h₀
      have : tl.filter (fun kv => kv.1 == k₀) = [] :=
        filter_key_eq_nil_of_not_mem tl k₀ (by simpa [dictKeys] using hnd.1)
      simp [dictGet?, List.filter_cons, this]
    · have h₀' : (k₀ == k) = false := by simpa using h₀
      simp only [List.filter_cons, h₀', Bool.false_eq_true, if_false, dictGet?, h₀]
      exact ih (by simpa [dictKeys] using hnd.2)

end MoreDictLemmas

namespace Gui

theorem phase1_preserves (now : Int) :
    ∀ (current : List (String × SnapInfo)) (running : List (String × TrackedInfo))
      (name : String) (i : TrackedInfo),
      dictGet? running name = some i →
      dictGet? (phase1 now current running).1 name = some i := by
  intro current
  induction current with
  | nil => intro running name i h; simpa [phase1] using h
  | cons hd rest ih =>
    obtain ⟨n₀, i₀⟩ := hd
    intro running name i h
    rw [phase1]
    by_cases hs : (dictGet? running n₀).isSome
    · rw [if_pos hs]
      exact ih running name i h
    · rw [if_neg hs]
      by_cases hn : name = n₀
      · subst hn
        rw [h] at hs
        simp at hs
      · exact ih _ name i (by rw [dictGet?_set_ne _ _ _ _ hn]; exact h)

theorem phase1_mem_keys (now : Int) :
    ∀ (current : List (String × SnapInfo)) (running : List (String × TrackedInfo))
      (name : String),
      (name ∈ dictKeys (phase1 now current running).1) ↔
        (name ∈ dictKeys running ∨ name ∈ dictKeys current) := by
  intro current
  induction current with
  | nil => intro running name; simp [phase1, dictKeys]
  | cons hd rest ih =>
    obtain ⟨n₀, i₀⟩ := hd
    intro running name
    rw [phase1]
    by_cases hs : (dictGet? running n₀).isSome
    · rw [if_pos hs]
      rw [ih running name]
      simp only [dictKeys, List.map_cons, List.mem_cons]
      constructor
      · rintro (h | h)
        · exact Or.inl h
        · exact Or.inr (Or.inr h)
      · rintro (h | h | h)
        · exact Or.inl h
        · subst h
          exact Or.inl ((mem_dictKeys_iff_isSome running name).mpr hs)
        · exact Or.inr h
    · rw [if_neg hs]
      rw [ih _ name, mem_dictKeys_set]
      simp only [dictKeys, List.map_cons, List.mem_cons]
      tauto

theorem phase1_new (now : Int) :
    ∀ (current : List (String × SnapInfo)) (running : List (String × TrackedInfo))
      (name : String) (info : SnapInfo),
      dictGet? running name = none →
      dictGet? current name = some info →
      dictGet? (phase1 now current running).1 name =
        some ⟨now, info.pid, info.create_time⟩ := by
  intro current
  induction current with
  | nil => intro running name info h hc; simp [dictGet?] at hc
  | cons hd rest ih =>
    obtain ⟨n₀, i₀⟩ := hd
    intro running name info h hc
    rw [phase1]
    by_cases hn : n₀ = name
    · subst hn
      have hs : ¬ (dictGet? running n₀).isSome := by simp [h]
      rw [if_neg hs]
      simp only [dictGet?, if_pos rfl] at hc
      cases hc
      exact phase1_preserves now rest _ n₀ _ (dictGet?_set_self _ _ _)
    · simp only [dictGet?, if_neg hn] at hc
      by_cases hs : (dictGet? running n₀).isSome
      · rw [if_pos hs]
        exact ih running name info h hc
      · rw [if_neg hs]
        exact ih _ name info (by rw [dictGet?_set_ne _ _ _ _ (fun e => hn e.symm)]; exact h) hc

theorem phase1_started_filter (now : Int) :
    ∀ (current : List (String × SnapInfo)) (running : List (String × TrackedInfo))
      (name : String),
      ((phase1 now current running).2.filter (fun p => p.1 == name)) =
        (match dictGet? running name, dictGet? current name with
         | none, some info => [(name, info.pid)]
         | _, _ => []) := by
  intro current
  induction current with
  | nil =>
    intro running name
    simp only [phase1, List.filter_nil, dictGet?]
    cases dictGet? running name <;> rfl
  | cons hd rest ih =>
    obtain ⟨n₀, i₀⟩ := hd
    intro running name
    rw [phase1]
    by_cases hs : (dictGet? running n₀).isSome
    · rw [if_pos hs, ih running name]
      by_cases hn : n₀ = name
      · subst hn
        obtain ⟨v, hv⟩ := Option.isSome_iff_exists.mp hs
        rw [hv]
      · simp only [dictGet?, if_neg hn]
    · rw [if_neg hs]
      have hnone : dictGet? running n₀ = none := by
        cases hh : dictGet? running n₀
        · rfl
        · rw [hh] at hs; simp at hs
      by_cases hn : n₀ = name
      · subst hn
        simp only [List.filter_cons, beq_self_eq_true, if_true]
        rw [ih _ n₀, dictGet?_set_self, hnone]
        simp [dictGet?]
      · have hn' : ((n₀, i₀.pid).1 == name) = false := by simpa using hn
        simp only [List.filter_cons, hn', Bool.false_eq_true, if_false]
        rw [ih _ name, dictGet?_set_ne _ _ _ _ (fun e => hn e.symm)]
        simp only [dictGet?, if_neg hn]

theorem phase1_keys_nodup (now : Int) :
    ∀ (current : List (String × SnapInfo)) (running : List (String × TrackedInfo)),
      (dictKeys running).Nodup →
      (dictKeys (phase1 now current running).1).Nodup := by
  intro current
  induction current with
  | nil => intro running h; simpa [phase1] using h
  | cons hd rest ih =>
    obtain ⟨n₀, i₀⟩ := hd
    intro running h
    rw [phase1]
    by_cases hs : (dictGet? running n₀).isSome
    · rw [if_pos hs]; exact ih running h
    · rw [if_neg hs]; exact ih _ (dictKeys_set_nodup _ _ _ h)

theorem phase2_eq_filter_map (now : Int) (current : List (String × SnapInfo)) :
    ∀ (l : List (String × TrackedInfo)),
      phase2 now current l =
        (l.filter (fun kv => !(dictGet? current kv.1).isSome)).map
          (fun kv => mkRecord kv.1 kv.2 now) := by
  intro l
  induction l with
  | nil => simp [phase2]
  | cons hd tl ih =>
    obtain ⟨n₀, i₀⟩ := hd
    rw [phase2]
    by_cases hs : (dictGet? current n₀).isSome
    · rw [if_pos hs, ih]
      have hb : (!(dictGet? current (n₀, i₀).1).isSome) = false := by simpa using hs
      simp only [List.filter_cons, hb, Bool.false_eq_true, if_false]
    · rw [if_neg hs, ih]
      have hb : (!(dictGet? current (n₀, i₀).1).isSome) = true := by simpa using hs
      simp only [List.filter_cons, hb, if_true, List.map_cons]

end Gui

theorem filter_map_comm {α β : Type} (f : α → β) (p : β → Bool) (l : List α) :
    (l.map f).filter p = (l.filter (fun a => p (f a))).map f := by
  induction l with
  | nil => simp
  | cons hd tl ih =>
    by_cases h : p (f hd) <;> simp [List.filter_cons, h, ih]

theorem filter_comm' {α : Type} (p q : α → Bool) (l : List α) :
    (l.filter p).filter q = (l.filter q).filter p := by
  induction l with
  | nil => simp
  | cons hd tl ih =>
    by_cases hp : p hd <;> by_cases hq : q hd <;>
      simp [List.filter_cons, hp, hq, ih]

namespace Gui

theorem monitorCycle_running (st : GuiState) (raw : Option (List ProcEntry))
    (now : Int) :
    (monitorCycle st raw now).state.running =
      (phase1 now (get_current_processes raw now) st.running).1.filter
        (fun kv => decide (kv.1 ∉
          (phase2 now (get_current_processes raw now)
            (phase1 now (get_current_processes raw now) st.running).1).map
              (fun r => r.process_name))) := by
  dsimp only [monitorCycle]
  rw [foldl_dictDel_eq_filter]

theorem monitorCycle_endedRecords (st : GuiState) (raw : Option (List ProcEntry))
    (now : Int) :
    (monitorCycle st raw now).endedRecords =
      phase2 now (get_current_processes raw now)
        (phase1 now (get_current_processes raw now) st.running).1 := by
  dsimp only [monitorCycle]

theorem monitorCycle_started (st : GuiState) (raw : Option (List ProcEntry))
    (now : Int) :
    (monitorCycle st raw now).started =
      (phase1 now (get_current_processes raw now) st.running).2 := by
  dsimp only [monitorCycle]

theorem monitorCycle_history (st : GuiState) (raw : Option (List ProcEntry))
    (now : Int) :
    (monitorCycle st raw now).state.history =
      st.history ++
        phase2 now (get_current_processes raw now)
          (phase1 now (get_current_processes raw now) st.running).1 := by
  dsimp only [monitorCycle]

theorem endedNames_eq (now : Int) (current : List (String × SnapInfo))
    (l : List (String × TrackedInfo)) :
    (phase2 now current l).map (fun r => r.process_name) =
      (l.filter (fun kv => !(dictGet? current kv.1).isSome)).map
        (fun kv => kv.1) := by
  rw [phase2_eq_filter_map, List.map_map]
  rfl

theorem mem_endedNames (now : Int) (current : List (String × SnapInfo))
    (l : List (String × TrackedInfo)) (name : String) :
    name ∈ (phase2 now current l).map (fun r => r.process_name) ↔
      (name ∈ dictKeys l ∧ ¬(dictGet? current name).isSome) := by
  rw [endedNames_eq]
  constructor
  · intro h
    obtain ⟨kv, hmem, rfl⟩ := List.mem_map.mp h
    obtain ⟨hmem', hpred⟩ := List.mem_filter.mp hmem
    refine ⟨List.mem_map.mpr ⟨kv, hmem', rfl⟩, ?_⟩
    simpa using hpred
  · intro ⟨hmem, hpred⟩
    obtain ⟨kv, hmem', hfst⟩ := List.mem_map.mp hmem
    refine List.mem_map.mpr ⟨kv, List.mem_filter.mpr ⟨hmem', ?_⟩, hfst⟩
    rw [hfst]
    simpa using hpred

theorem cycle_lookup (st : GuiState) (raw : Option (List ProcEntry)) (now : Int)
    (name : String) :
    dictGet? (monitorCycle st raw now).state.running name =
      (match dictGet? (get_current_processes raw now) name with
       | none => none
       | some info =>
         (match dictGet? st.running name with
          | some i => some i
          | none => some ⟨now, info.pid, info.create_time⟩)) := by
  rw [monitorCycle_running]
  cases hc : dictGet? (get_current_processes raw now) name with
  | some info =>
    have hnotended : name ∉
        (phase2 now (get_current_processes raw now)
          (phase1 now (get_current_processes raw now) st.running).1).map
            (fun r => r.process_name) := by
      rw [mem_endedNames]
      intro ⟨_, habs⟩
      exact habs (by simp [hc])
    rw [dictGet?_filter_not_mem _ _ _ hnotended]
    cases hr : dictGet? st.running name with
    | some i =>
      rw [phase1_preserves now _ st.running name i hr]
    | none =>
      rw [phase1_new now _ st.running name info hr hc]
  | none =>
    by_cases hmem : name ∈ dictKeys (phase1 now (get_current_processes raw now) st.running).1
    · have hended : name ∈
          (phase2 now (get_current_processes raw now)
            (phase1 now (get_current_processes raw now) st.running).1).map
              (fun r => r.process_name) := by
        rw [mem_endedNames]
        exact ⟨hmem, by simp [hc]⟩
      rw [dictGet?_filter_mem _ _ _ hended]
    · have : ¬ (dictGet? ((phase1 now (get_current_processes raw now) st.running).1.filter
          (fun kv => decide (kv.1 ∉
            (phase2 now (get_current_processes raw now)
              (phase1 now (get_current_processes raw now) st.running).1).map
                (fun r => r.process_name)))) name).isSome := by
        intro habs
        apply hmem
        have hmem' := (mem_dictKeys_iff_isSome _ name).mpr habs
        have hsub : (dictKeys ((phase1 now (get_current_processes raw now) st.running).1.filter
            (fun kv => decide (kv.1 ∉
              (phase2 now (get_current_processes raw now)
                (phase1 now (get_current_processes raw now) st.running).1).map
                  (fun r => r.process_name))))).Sublist
            (dictKeys (phase1 now (get_current_processes raw now) st.running).1) :=
          (List.filter_sublist _).map Prod.fst
        exact hsub.mem hmem'
      rw [Option.not_isSome_iff_eq_none] at this
      rw [this]

theorem cycle_keys_nodup (st : GuiState) (raw : Option (List ProcEntry))
    (now : Int) (h : (dictKeys st.running).Nodup) :
    (dictKeys (monitorCycle st raw now).state.running).Nodup := by
  rw [monitorCycle_running]
  exact ((List.filter_sublist _).map Prod.fst).nodup
    (phase1_keys_nodup now _ st.running h)

end Gui

theorem altRun_append (name : String) (a b : List Ev) (opn : Bool) :
    altRun name (a ++ b) opn =
      (altRun name a opn).bind (fun o => altRun name b o) := by
  induction a generalizing opn with
  | nil => simp [altRun]
  | cons ev rest ih =>
    cases ev with
    | started n p =>
      simp only [List.cons_append, altRun]
      by_cases hn : n = name
      · rw [if_pos hn, if_pos hn]
        cases opn
        · simp only [Bool.false_eq_true, if_false]
          exact ih true
        · simp
      · rw [if_neg hn, if_neg hn]
        exact ih opn
    | ended n d =>
      simp only [List.cons_append, altRun]
      by_cases hn : n = name
      · rw [if_pos hn, if_pos hn]
        cases opn
        · simp
        · simp only [if_true]
          exact ih false
      · rw [if_neg hn, if_neg hn]
        exact ih opn

theorem altRun_filter (name : String) (evs : List Ev) (opn : Bool) :
    altRun name evs opn =
      altRun name (evs.filter (fun ev => evName ev == name)) opn := by
  induction evs generalizing opn with
  | nil => simp
  | cons ev rest ih =>
    cases ev with
    | started n p =>
      by_cases hn : n = name
      · subst hn
        simp only [altRun, if_pos rfl, List.filter_cons, evName, beq_self_eq_true,
          if_true]
        cases opn
        · simp only [Bool.false_eq_true, if_false]
          exact ih true
        · simp [altRun]
      · have hb : (evName (Ev.started n p) == name) = false := by
          simpa [evName] using hn
        simp only [altRun, if_neg hn, List.filter_cons, hb, Bool.false_eq_true,
          if_false]
        exact ih opn
    | ended n d =>
      by_cases hn : n = name
      · subst hn
        simp only [altRun, if_pos rfl, List.filter_cons, evName, beq_self_eq_true,
          if_true]
        cases opn
        · simp [altRun]
        · simp only [if_true]
          exact ih false
      · have hb : (evName (Ev.ended n d) == name) = false := by
          simpa [evName] using hn
        simp only [altRun, if_neg hn, List.filter_cons, hb, Bool.false_eq_true,
          if_false]
        exact ih opn

namespace Gui

theorem altRun_cycle (st : GuiState) (raw : Option (List ProcEntry)) (now : Int)
    (name : String) (hnd : (dictKeys st.running).Nodup) :
    altRun name (cycleEvents (monitorCycle st raw now))
        (dictGet? st.running name).isSome =
      some (dictGet? (monitorCycle st raw now).state.running name).isSome := by
  have hp1nd := phase1_keys_nodup now (get_current_processes raw now) st.running hnd
  have hev : cycleEvents (monitorCycle st raw now) =
      ((phase1 now (get_current_processes raw now) st.running).2.map
        (fun p => Ev.started p.1 p.2)) ++
      ((phase2 now (get_current_processes raw now)
          (phase1 now (get_current_processes raw now) st.running).1).map
        (fun r => Ev.ended r.process_name r.duration_seconds)) := by
    rw [cycleEvents, monitorCycle_started, monitorCycle_endedRecords]
  have hsf : ((phase1 now (get_current_processes raw now) st.running).2.map
        (fun p => Ev.started p.1 p.2)).filter (fun ev => evName ev == name) =
      (((phase1 now (get_current_processes raw now) st.running).2.filter
        (fun p => p.1 == name)).map (fun p => Ev.started p.1 p.2)) := by
    rw [filter_map_comm]
    rfl
  have hef : ((phase2 now (get_current_processes raw now)
          (phase1 now (get_current_processes raw now) st.running).1).map
        (fun r => Ev.ended r.process_name r.duration_seconds)).filter
          (fun ev => evName ev == name) =
      ((((phase1 now (get_current_processes raw now) st.running).1.filter
          (fun kv => kv.1 == name)).filter
            (fun kv => !(dictGet? (get_current_processes raw now) kv.1).isSome)).map
        (fun kv => Ev.ended kv.1 (mkRecord kv.1 kv.2 now).duration_seconds)) := by
    rw [phase2_eq_filter_map, filter_map_comm, filter_map_comm, List.map_map,
      filter_comm']
    rfl
  rw [hev, altRun_append,
    altRun_filter name _ ((dictGet? st.running name).isSome), hsf,
    phase1_started_filter, cycle_lookup]
  cases hc : dictGet? (get_current_processes raw now) name with
  | some info =>
    have hend : altRun name ((phase2 now (get_current_processes raw now)
          (phase1 now (get_current_processes raw now) st.running).1).map
        (fun r => Ev.ended r.process_name r.duration_seconds)) true = some true := by
      rw [altRun_filter]
      have hnil : ((phase2 now (get_current_processes raw now)
          (phase1 now (get_current_processes raw now) st.running).1).map
            (fun r => Ev.ended r.process_name r.duration_seconds)).filter
              (fun ev => evName ev == name) = [] := by
        rw [List.filter_eq_nil_iff]
        intro ev hmem
        obtain ⟨r, hr, rfl⟩ := List.mem_map.mp hmem
        simp only [evName, ne_eq, beq_iff_eq]
        intro habs
        have hmem2 : r.process_name ∈ (phase2 now (get_current_processes raw now)
            (phase1 now (get_current_processes raw now) st.running).1).map
              (fun r => r.process_name) := List.mem_map_of_mem _ hr
        rw [habs, mem_endedNames] at hmem2
        exact hmem2.2 (by simp [hc])
      rw [hnil]
      rfl
    cases hr : dictGet? st.running name with
    | some i =>
      simp only [List.map_nil, altRun, Option.isSome_some, Option.some_bind]
      exact hend
    | none =>
      simp only [Option.isSome_none, List.map_cons, List.map_nil, altRun,
        if_pos rfl, Bool.false_eq_true, if_false, Option.some_bind,
        Option.isSome_some]
      exact hend
  | none =>
    cases hr : dictGet? st.running name with
    | some i =>
      -- tracked and gone from the snapshot: exactly one Ended event, closing
      have hp1 : dictGet? (phase1 now (get_current_processes raw now)
          st.running).1 name = some i :=
        phase1_preserves now _ st.running name i hr
      simp only [List.map_nil, altRun, Option.isSome_some, Option.some_bind,
        Option.isSome_none]
      rw [altRun_filter, hef, filter_key_eq_of_nodup _ _ hp1nd, hp1]
      have hpred : (!(dictGet? (get_current_processes raw now)
          ((name, i) : String × TrackedInfo).1).isSome) = true := by
        simp [hc]
      simp only [List.filter_cons, hpred, if_true, List.filter_nil,
        List.map_cons, List.map_nil, altRun, if_pos rfl, if_true]
    | none =>
      -- untracked and absent: no event at all
      have hp1 : dictGet? (phase1 now (get_current_processes raw now)
          st.running).1 name = none := by
        cases hp1c : dictGet? (phase1 now (get_current_processes raw now)
            st.running).1 name with
        | none => rfl
        | some v =>
          exfalso
          have hmem := (mem_dictKeys_iff_isSome
            (phase1 now (get_current_processes raw now) st.running).1 name).mpr
            (by rw [hp1c]; rfl)
          rw [phase1_mem_keys] at hmem
          cases hmem with
          | inl h =>
            have := (mem_dictKeys_iff_isSome _ name).mp h
            rw [hr] at this
            simp at this
          | inr h =>
            have := (mem_dictKeys_iff_isSome _ name).mp h
            rw [hc] at this
            simp at this
      simp only [List.map_nil, altRun, Option.isSome_none, Option.some_bind]
      rw [altRun_filter, hef, filter_key_eq_of_nodup _ _ hp1nd, hp1]
      rfl

theorem altRun_runCycles :
    ∀ (script : List (Option (List ProcEntry) × Int)) (st : GuiState)
      (name : String), (dictKeys st.running).Nodup →
      altRun name (runCycles st script).2 (dictGet? st.running name).isSome =
        some (dictGet? (runCycles st script).1.running name).isSome := by
  intro script
  induction script with
  | nil => intro st name h; simp [runCycles, altRun]
  | cons c rest ih =>
    intro st name h
    obtain ⟨raw, now⟩ := c
    dsimp only [runCycles]
    rw [altRun_append, altRun_cycle st raw now name h]
    simp only [Option.some_bind]
    exact ih _ name (cycle_keys_nodup st raw now h)

end Gui

namespace Gui

theorem runCycles_keys_nodup :
    ∀ (script : List (Option (List ProcEntry) × Int)) (st : GuiState),
      (dictKeys st.running).Nodup →
      (dictKeys (runCycles st script).1.running).Nodup := by
  intro script
  induction script with
  | nil => intro st h; exact h
  | cons c rest ih =>
    intro st h
    obtain ⟨raw, now⟩ := c
    dsimp only [runCycles]
    exact ih _ (cycle_keys_nodup st raw now h)

end Gui

/-- Claim C3 (amended): for the name-keyed reconciler of src/gui.py, over every
script of reconciliation cycles started from the initial empty state, no
identity ever produces two Started events without an intervening Ended event
(the Started and Ended events of each name strictly alternate, starting
closed), and the live table never holds two tracking records for one name.
The pid-keyed reconciler of src/main.py violates this, see the
counterexample. -/
theorem gui_started_ended_alternate
    (script : List (Option (List ProcEntry) × Int)) (name : String) :
    (altRun name (Gui.runCycles ⟨[], []⟩ script).2 false).isSome = true ∧
    (dictKeys (Gui.runCycles ⟨[], []⟩ script).1.running).Nodup := by
  constructor
  · have h : altRun name (Gui.runCycles ⟨[], []⟩ script).2 false =
        some (dictGet? (Gui.runCycles ⟨[], []⟩ script).1.running name).isSome :=
      Gui.altRun_runCycles script ⟨[], []⟩ name (by simp [dictKeys])
    rw [h]
    rfl
  · exact Gui.runCycles_keys_nodup script ⟨[], []⟩ (by simp [dictKeys])

/-- Claim C3 (counterexample): in src/main.py the live table is keyed by pid,
so one snapshot holding two same-named processes (pids 1 and 2, name a) makes
update_processes emit two Started events for the identity a with no Ended
between them — the event trace for that name violates the alternation. -/
theorem main_duplicate_names_double_start :
    (Main.update ⟨[], []⟩ (some [⟨1, "a", 0⟩, ⟨2, "a", 0⟩]) 0).2 =
      [Ev.started "a" 1, Ev.started "a" 2] ∧
    altRun "a" (Main.update ⟨[], []⟩ (some [⟨1, "a", 0⟩, ⟨2, "a", 0⟩]) 0).2
      false = none := by
  constructor
  · rfl
  · rfl

/-- Claim C10: the name-keyed snapshot of gui.py get_current_processes holds
at most one entry per process name, and the entry a name maps to carries the
pid and create_time of the last enumerated entry with that name that passed
the filter: later same-named entries overwrite earlier ones, which become
invisible to the reconciler. -/
theorem gui_snapshot_last_entry_wins (entries : List ProcEntry) (t : Int) :
    (dictKeys (Gui.get_current_processes (some entries) t)).Nodup ∧
    ∀ name : String,
      dictGet? (Gui.get_current_processes (some entries) t) name =
        (Gui.lastPassingNamed name entries).map
          (fun e => (⟨e.pid, e.create_time, t⟩ : Gui.SnapInfo)) :=
  ⟨Gui.snapshot_keys_nodup _ _, fun name => Gui.snapshot_lookup entries t name⟩

/-- Claim C7 (amended): the gui.py sampler includes a name in the snapshot
exactly when some enumerated entry with that name passes the filter — name
non-empty, not starting with System, not starting with Registry, pid
strictly positive; the main.py sampler applies no such filtering and returns
every successfully enumerated entry unchanged (see the counterexample). -/
theorem gui_filter_exact :
    (∀ (entries : List ProcEntry) (t : Int) (name : String),
      name ∈ dictKeys (Gui.get_current_processes (some entries) t) ↔
        ∃ e ∈ entries, e.name = name ∧ ¬ e.name = "" ∧
          strStartsWith e.name "System" = false ∧
          strStartsWith e.name "Registry" = false ∧ 0 < e.pid) ∧
    (∀ l : List ProcEntry, Main.get_current_processes (some l) = l) := by
  constructor
  · intro entries t name
    rw [mem_dictKeys_iff_isSome, Gui.snapshot_lookup]
    have hmap : ∀ o : Option ProcEntry,
        (o.map (fun e =>
          (⟨e.pid, e.create_time, t⟩ : Gui.SnapInfo))).isSome = o.isSome := by
      intro o; cases o <;> rfl
    rw [hmap, Gui.lastPassingNamed_isSome_iff]
    constructor
    · intro ⟨e, hmem, hp, hn⟩
      refine ⟨e, hmem, hn, ?_⟩
      simpa [Gui.passes, bne_iff_ne, and_assoc] using hp
    · intro ⟨e, hmem, hn, hrest⟩
      refine ⟨e, hmem, ?_, hn⟩
      simpa [Gui.passes, bne_iff_ne, and_assoc] using hrest
  · intro l
    rfl

/-- Claim C7 (counterexample): main.py get_current_processes keeps an entry
with a System-prefixed name and non-positive pid, which the claim says every
snapshot excludes (the gui.py filter indeed rejects it). -/
theorem main_sampler_includes_excluded_entries :
    Main.get_current_processes (some [⟨0, "System", 0⟩]) = [⟨0, "System", 0⟩] ∧
    Gui.passes ⟨0, "System", 0⟩ = false := by
  constructor
  · rfl
  · rfl

theorem Main.endTracked_no_current (now : Int) :
    ∀ l : List (Int × Main.MainTracked),
      Main.endTracked now [] l =
        (l.map (fun kv =>
          (⟨kv.2.name, kv.1, kv.2.start_time, now,
            now - kv.2.start_time⟩ : Main.MainRecord)),
         l.map (fun kv => Ev.ended kv.2.name (now - kv.2.start_time))) := by
  intro l
  induction l with
  | nil => rfl
  | cons hd tl ih =>
    obtain ⟨pid, info⟩ := hd
    rw [Main.endTracked, ih]
    rfl

/-- Claim C2 (amended): when the whole enumeration call fails, neither engine
aborts the cycle; the sampler degrades the snapshot to the empty one and the
cycle proceeds against it: no Started events, but every tracked process is
closed — one record per live-table entry is appended to history and the live
table is emptied.  This mutates the tracked table and the history (and
main.py additionally rewrites the persisted text log on every cycle). -/
theorem total_failure_behaves_as_empty_snapshot :
    (∀ (st : Gui.GuiState) (now : Int),
      Gui.monitorCycle st none now = Gui.monitorCycle st (some []) now ∧
      (Gui.monitorCycle st none now).state.running = [] ∧
      (Gui.monitorCycle st none now).state.history =
        st.history ++ st.running.map (fun kv => Gui.mkRecord kv.1 kv.2 now) ∧
      (Gui.monitorCycle st none now).started = [] ∧
      (Gui.monitorCycle st none now).endedRecords =
        st.running.map (fun kv => Gui.mkRecord kv.1 kv.2 now)) ∧
    (∀ (st : Main.MainState) (now : Int),
      (Main.update st none now).1.running = [] ∧
      (Main.update st none now).1.history =
        st.history ++ st.running.map (fun kv =>
          (⟨kv.2.name, kv.1, kv.2.start_time, now,
            now - kv.2.start_time⟩ : Main.MainRecord))) := by
  constructor
  · intro st now
    have hp1 : Gui.phase1 now (Gui.get_current_processes none now) st.running =
        (st.running, []) := rfl
    have hp2 : Gui.phase2 now (Gui.get_current_processes none now) st.running =
        st.running.map (fun kv => Gui.mkRecord kv.1 kv.2 now) := by
      rw [Gui.phase2_eq_filter_map]
      congr 1
      rw [List.filter_eq_self]
      intro kv _
      rfl
    refine ⟨rfl, ?_, ?_, ?_, ?_⟩
    · rw [Gui.monitorCycle_running, hp1]
      dsimp only
      rw [List.filter_eq_nil_iff]
      intro kv hkv
      simp only [decide_eq_true_eq, not_not]
      rw [hp2, List.map_map]
      exact List.mem_map.mpr ⟨kv, hkv, rfl⟩
    · rw [Gui.monitorCycle_history, hp1]
      dsimp only
      rw [hp2]
    · rw [Gui.monitorCycle_started, hp1]
    · rw [Gui.monitorCycle_endedRecords, hp1]
      dsimp only
      rw [hp2]
  · intro st now
    have hcur : Main.get_current_processes none = [] := rfl
    have hupd : Main.update st none now =
        (⟨((Main.endTracked now [] st.running).1.map (fun r => r.pid)).foldl
            (fun r p => dictDel r p) st.running,
          st.history ++ (Main.endTracked now [] st.running).1⟩,
         (Main.addNew now [] st.running).2 ++
           (Main.endTracked now [] st.running).2) := by
      dsimp only [Main.update, Main.get_current_processes, Main.addNew,
        List.map_nil]
    constructor
    · rw [hupd]
      dsimp only
      rw [Main.endTracked_no_current, foldl_dictDel_eq_filter,
        List.filter_eq_nil_iff]
      intro kv hkv
      simp only [decide_eq_true_eq, not_not, List.map_map]
      exact List.mem_map.mpr ⟨kv, hkv, rfl⟩
    · rw [hupd]
      dsimp only
      rw [Main.endTracked_no_current]

/-- Claim C2 (counterexample): a total sampling failure (the enumeration
raising, modelled by the none input) does NOT leave the state unchanged: with
one process tracked, the cycle appends an end record to history, clears the
live table, and an Ended transition is produced. -/
theorem gui_total_failure_mutates_state :
    (Gui.monitorCycle ⟨[("a", ⟨0, 100, 7⟩)], []⟩ none 1000000).state ≠
      (⟨[("a", ⟨0, 100, 7⟩)], []⟩ : Gui.GuiState) ∧
    (Gui.monitorCycle ⟨[("a", ⟨0, 100, 7⟩)], []⟩ none 1000000).endedRecords ≠
      [] := by
  constructor
  · decide
  · decide

/-- Claim C1 (amended): in the gui.py engine the live table is keyed by the
process name — after any cycle a name is tracked exactly when the snapshot
holds it, and a name present both in the table and in the snapshot keeps its
tracking record completely unchanged, even when the snapshot pid differs
(a reused pid under the same name is the same tracked entity until the name
disappears).  The main.py engine instead keys its live table by pid, see the
counterexample. -/
theorem gui_tracking_is_name_keyed (st : Gui.GuiState)
    (raw : Option (List ProcEntry)) (now : Int) (name : String) :
    (name ∈ dictKeys (Gui.monitorCycle st raw now).state.running ↔
      (dictGet? (Gui.get_current_processes raw now) name).isSome = true) ∧
    (∀ i : Gui.TrackedInfo, dictGet? st.running name = some i →
      (dictGet? (Gui.get_current_processes raw now) name).isSome = true →
      dictGet? (Gui.monitorCycle st raw now).state.running name = some i) := by
  constructor
  · rw [mem_dictKeys_iff_isSome, Gui.cycle_lookup]
    cases hc : dictGet? (Gui.get_current_processes raw now) name with
    | none => simp
    | some info =>
      cases hr : dictGet? st.running name <;> simp
  · intro i hi hc
    rw [Gui.cycle_lookup]
    cases hcc : dictGet? (Gui.get_current_processes raw now) name with
    | none => rw [hcc] at hc; simp at hc
    | some info => rw [hi]
/-- Witness for C1: a process named a is tracked with pid 100; the next
snapshot shows name a under pid 200; the cycle keeps the original tracking
record untouched. -/
theorem gui_tracking_is_name_keyed_witness :
    dictGet? (Gui.monitorCycle ⟨[("a", ⟨0, 100, 7⟩)], []⟩
        (some [⟨200, "a", 9⟩]) 5).state.running "a" = some ⟨0, 100, 7⟩ :=
  (gui_tracking_is_name_keyed ⟨[("a", ⟨0, 100, 7⟩)], []⟩
    (some [⟨200, "a", 9⟩]) 5 "a").2 ⟨0, 100, 7⟩ (by rfl) (by rfl)

/-- Claim C1 (counterexample): the main.py reconciler does not correlate by
name: across two snapshots that both contain the name a (first under pid 5,
then under pid 7), the tracked entity is replaced — an end record for a is
appended to history and the table holds the new pid — although the name a
never disappeared from a snapshot. -/
theorem main_update_breaks_name_correlation :
    (Main.runCycles ⟨[], []⟩ ⟨none, none⟩
        [(some [⟨5, "a", 0⟩], 0), (some [⟨7, "a", 0⟩], 10)]).1.history =
      [⟨"a", 5, 0, 10, 10⟩] ∧
    (Main.runCycles ⟨[], []⟩ ⟨none, none⟩
        [(some [⟨5, "a", 0⟩], 0), (some [⟨7, "a", 0⟩], 10)]).1.running =
      [(7, ⟨"a", 10, 7⟩)] ∧
    (([(some [⟨5, "a", 0⟩], 0), (some [⟨7, "a", 0⟩], 10)] :
        List (Option (List ProcEntry) × Int))).all
      (fun c => (c.1.getD []).any (fun e => e.name == "a")) = true := by
  refine ⟨rfl, rfl, rfl⟩

/-- Claim C4 (amended): the gui.py monitoring loop runs exactly as long as
the monitoring flag is set, whatever the tick outcomes — a raising tick is
logged and the loop continues; the main.py monitor_loop instead breaks out
of the loop on the first raising tick (see the counterexample), so there one
cycle failure is fatal to the scheduler. -/
theorem gui_loop_ignores_tick_errors :
    (∀ s : List (Bool × Bool), Gui.guiLoop s = Gui.ticksWhileFlagSet s) ∧
    (∀ rest : List (Bool × Bool), Main.mainLoop ((true, true) :: rest) = 1) := by
  constructor
  · intro s
    induction s with
    | nil => rfl
    | cons p rest ih =>
      obtain ⟨f, r⟩ := p
      cases f <;> simp [Gui.guiLoop, Gui.ticksWhileFlagSet, ih]
  · intro rest
    rfl

/-- Claim C4 (counterexample): with the monitoring flag set for two ticks and
the first tick raising, main.py monitor_loop executes one iteration and
terminates, while a scheduler that kept iterating while the flag is set would
run two. -/
theorem main_monitor_loop_stops_on_error :
    Main.mainLoop [(true, true), (true, false)] = 1 ∧
    Gui.ticksWhileFlagSet [(true, true), (true, false)] = 2 := ⟨rfl, rfl⟩

/-- Claim C5 (amended): the gui.py JSON persistence round-trips — loading the
saved document yields exactly the stored record sequence (as the raw JSON
list, which decodes field-for-field back to the original records, in order);
the main.py pair save_data/load_data does NOT round-trip: save_data writes
the fixed-width text log while load_data only ever reads the legacy JSON
DATA_FILE, so what load_data returns is independent of what was just saved
(see the counterexample). -/
theorem gui_log_round_trip :
    (∀ (h : List Gui.Record) (now : Int),
      Gui.load_existing_log (some (Gui.save_log h now)) =
        h.map Gui.encodeRecord) ∧
    (∀ r : Gui.Record, Gui.decodeRecord (Gui.encodeRecord r) = some r) ∧
    (∀ (fs : Main.MainFS) (h : List Main.MainRecord),
      Main.load_data (Main.save_data fs h) = Main.dataHistory fs.dataFile) := by
  refine ⟨fun h now => rfl, fun r => rfl, fun fs h => rfl⟩

/-- Claim C5 (counterexample): starting from no files on disk, persisting a
one-record history with main.py save_data and loading in a fresh instance
yields the empty history, not the saved record. -/
theorem main_save_then_load_loses_history :
    Main.load_data (Main.save_data ⟨none, none⟩ [⟨"a", 1, 0, 10, 10⟩]) = [] ∧
    ([⟨"a", 1, 0, 10, 10⟩] : List Main.MainRecord) ≠ [] := by
  exact ⟨rfl, by decide⟩

/-- Claim C6 (amended): gui.py stop_monitoring clears the monitoring flag
(so the loop halts at its next flag check), persists exactly the in-memory
history, and leaves the engine state untouched — in particular no
LifespanRecord is synthesized for still-tracked processes and the live table
is not cleared.  The persisted history may however already contain completed
records of identities that are tracked again at stop time, and main.py
stop_monitoring persists nothing at all (see the counterexample). -/
theorem stop_monitoring_final_persist (app : Gui.GuiApp) (now : Int) :
    (Gui.stop_monitoring app now).monitoring = false ∧
    (Gui.stop_monitoring app now).state = app.state ∧
    (Gui.stop_monitoring app now).file =
      some (Gui.save_log app.state.history now) ∧
    (∀ (b : Bool) (rest : List (Bool × Bool)),
      Gui.guiLoop (((Gui.stop_monitoring app now).monitoring, b) :: rest) = 0) :=
  ⟨rfl, rfl, rfl, fun _b _rest => rfl⟩

/-- Claim C6 (counterexample): after the snapshots a-present, a-absent,
a-present the identity a is tracked again while history already holds its
first completed record; stopping persists that history, so the persisted file
does contain a record for a still-tracked identity — and main.py
stop_monitoring writes no file at all, so there is no forced final persist
there. -/
theorem gui_stop_keeps_record_of_tracked_identity :
    dictKeys (Gui.stop_monitoring
        ⟨true, (Gui.runCycles ⟨[], []⟩
          [(some [⟨1, "a", 0⟩], 0), (some [], 1000000),
           (some [⟨2, "a", 0⟩], 2000000)]).1, none⟩ 3000000).state.running =
      ["a"] ∧
    Gui.load_existing_log (Gui.stop_monitoring
        ⟨true, (Gui.runCycles ⟨[], []⟩
          [(some [⟨1, "a", 0⟩], 0), (some [], 1000000),
           (some [⟨2, "a", 0⟩], 2000000)]).1, none⟩ 3000000).file =
      [Gui.encodeRecord ⟨"a", 0, 1000000, 1, 1⟩] ∧
    (Main.stop_monitoring ⟨true, ⟨none, none⟩⟩).fs.logFile = none := by
  refine ⟨rfl, rfl, rfl⟩

namespace Main

theorem endTracked_records (now : Int) (currentPids : List Int) :
    ∀ (l : List (Int × MainTracked)) (r : MainRecord),
      r ∈ (endTracked now currentPids l).1 →
      r.end_time = now ∧ r.duration = now - r.start_time := by
  intro l
  induction l with
  | nil => intro r h; simp [endTracked] at h
  | cons hd tl ih =>
    obtain ⟨pid, info⟩ := hd
    intro r h
    rw [endTracked] at h
    by_cases hc : currentPids.contains pid
    · rw [if_pos hc] at h
      exact ih r h
    · rw [if_neg hc] at h
      rcases List.mem_cons.mp h with rfl | h'
      · exact ⟨rfl, rfl⟩
      · exact ih r h'

end Main

/-- Claim C8 (amended): in the gui.py engine every record produced by a
cycle has end_time equal to the cycle clock and its stored duration_seconds
equal to the exact difference end_time minus start_time truncated to whole
seconds (microseconds divided by 1000000 rounding toward zero) — not the
exact difference, see the counterexample; start_time is the engine-observed
clock of the cycle that first saw the name (the fresh tracking record stores
the cycle clock, not the OS create_time, which is kept in a separate field).
In the main.py engine the recorded duration is exactly end_time minus
start_time. -/
theorem duration_and_start_time_characterization :
    (∀ (st : Gui.GuiState) (raw : Option (List ProcEntry)) (now : Int)
        (r : Gui.Record), r ∈ (Gui.monitorCycle st raw now).endedRecords →
      r.end_time = now ∧
      r.duration_seconds = Int.tdiv (r.end_time - r.start_time) 1000000) ∧
    (∀ (st : Gui.GuiState) (raw : Option (List ProcEntry)) (now : Int)
        (name : String) (info : Gui.SnapInfo),
      dictGet? st.running name = none →
      dictGet? (Gui.get_current_processes raw now) name = some info →
      dictGet? (Gui.monitorCycle st raw now).state.running name =
        some ⟨now, info.pid, info.create_time⟩) ∧
    (∀ (st : Main.MainState) (raw : Option (List ProcEntry)) (now : Int)
        (r : Main.MainRecord), r ∈ (Main.update st raw now).1.history →
      r ∈ st.history ∨
        (r.end_time = now ∧ r.duration = r.end_time - r.start_time)) := by
  refine ⟨?_, ?_, ?_⟩
  · intro st raw now r hmem
    rw [Gui.monitorCycle_endedRecords, Gui.phase2_eq_filter_map] at hmem
    obtain ⟨kv, _, rfl⟩ := List.mem_map.mp hmem
    exact ⟨rfl, rfl⟩
  · intro st raw now name info hr hc
    rw [Gui.cycle_lookup, hc, hr]
  · intro st raw now r hmem
    have hh : (Main.update st raw now).1.history =
        st.history ++ (Main.endTracked now
          ((Main.get_current_processes raw).map (fun e => e.pid))
          st.running).1 := by
      dsimp only [Main.update]
    rw [hh] at hmem
    rcases List.mem_append.mp hmem with h | h
    · exact Or.inl h
    · obtain ⟨he, hd⟩ := Main.endTracked_records now _ st.running r h
      exact Or.inr ⟨he, by rw [hd, he]⟩
/-- Witness for C8: the concrete record produced when a process tracked since
clock 0 disappears at clock 1500000 (1.5 seconds later) satisfies the
characterization: end_time 1500000 and duration_seconds 1. -/
theorem duration_and_start_time_characterization_witness :
    (⟨"a", 0, 1500000, 1, 100⟩ : Gui.Record).end_time = 1500000 ∧
    (⟨"a", 0, 1500000, 1, 100⟩ : Gui.Record).duration_seconds =
      Int.tdiv ((⟨"a", 0, 1500000, 1, 100⟩ : Gui.Record).end_time -
        (⟨"a", 0, 1500000, 1, 100⟩ : Gui.Record).start_time) 1000000 :=
  duration_and_start_time_characterization.1 ⟨[("a", ⟨0, 100, 7⟩)], []⟩ none
    1500000 ⟨"a", 0, 1500000, 1, 100⟩ (by decide)

/-- Claim C8 (counterexample): the gui.py record for a lifespan of exactly
1.5 seconds stores duration_seconds 1, so the recorded duration does not
equal end_time minus start_time exactly — the sub-second remainder is
dropped by the int() truncation. -/
theorem gui_duration_seconds_truncates :
    (Gui.monitorCycle ⟨[("a", ⟨0, 100, 7⟩)], []⟩ none 1500000).endedRecords =
      [⟨"a", 0, 1500000, 1, 100⟩] ∧
    ¬ ((⟨"a", 0, 1500000, 1, 100⟩ : Gui.Record).duration_seconds * 1000000 =
        (⟨"a", 0, 1500000, 1, 100⟩ : Gui.Record).end_time -
          (⟨"a", 0, 1500000, 1, 100⟩ : Gui.Record).start_time) := by
  exact ⟨by decide, by decide⟩

namespace Gui

theorem mem_insortDesc (x : String × NameStats) :
    ∀ (l : List (String × NameStats)) (y : String × NameStats),
      y ∈ insortDesc x l ↔ y = x ∨ y ∈ l := by
  intro l
  induction l with
  | nil => intro y; simp [insortDesc]
  | cons hd tl ih =>
    intro y
    rw [insortDesc]
    by_cases hc : hd.2.total_duration < x.2.total_duration
    · rw [if_pos hc]
      simp [List.mem_cons]
    · rw [if_neg hc]
      simp only [List.mem_cons, ih]
      tauto

theorem insortDesc_pairwise (x : String × NameStats) :
    ∀ l : List (String × NameStats),
      l.Pairwise (fun a b => b.2.total_duration ≤ a.2.total_duration) →
      (insortDesc x l).Pairwise
        (fun a b => b.2.total_duration ≤ a.2.total_duration) := by
  intro l
  induction l with
  | nil => intro _; simp [insortDesc]
  | cons hd tl ih =>
    intro h
    rw [List.pairwise_cons] at h
    rw [insortDesc]
    by_cases hc : hd.2.total_duration < x.2.total_duration
    · rw [if_pos hc]
      rw [List.pairwise_cons]
      constructor
      · intro y hy
        rcases List.mem_cons.mp hy with rfl | hy'
        · exact le_of_lt hc
        · exact le_trans (h.1 y hy') (le_of_lt hc)
      · exact List.pairwise_cons.mpr h
    · rw [if_neg hc]
      rw [List.pairwise_cons]
      constructor
      · intro y hy
        rcases (mem_insortDesc x tl y).mp hy with rfl | hy'
        · exact le_of_not_lt hc
        · exact h.1 y hy'
      · exact ih h.2

theorem insortDesc_filter_total (x : String × NameStats) (d : Int) :
    ∀ l : List (String × NameStats),
      l.Pairwise (fun a b => b.2.total_duration ≤ a.2.total_duration) →
      (insortDesc x l).filter (fun kv => kv.2.total_duration == d) =
        (if x.2.total_duration = d
         then l.filter (fun kv => kv.2.total_duration == d) ++ [x]
         else l.filter (fun kv => kv.2.total_duration == d)) := by
  intro l
  induction l with
  | nil =>
    intro _
    by_cases hd : x.2.total_duration = d
    · simp [insortDesc, List.filter_cons, hd]
    · simp [insortDesc, List.filter_cons, hd]
  | cons hd tl ih =>
    intro h
    rw [List.pairwise_cons] at h
    rw [insortDesc]
    by_cases hc : hd.2.total_duration < x.2.total_duration
    · rw [if_pos hc]
      by_cases hxd : x.2.total_duration = d
      · have htl : (hd :: tl).filter (fun kv => kv.2.total_duration == d) = [] := by
          rw [List.filter_eq_nil_iff]
          intro kv hkv
          simp only [beq_iff_eq]
          intro habs
          rcases List.mem_cons.mp hkv with rfl | hkv'
          · exact absurd (habs ▸ hc) (by rw [← hxd] at habs ⊢; exact lt_irrefl _)
          · have hle := h.1 kv hkv'
            have : kv.2.total_duration < x.2.total_duration :=
              lt_of_le_of_lt hle hc
            rw [habs, hxd] at this
            exact lt_irrefl d this
        rw [if_pos hxd, htl]
        have hx : ((x.2.total_duration == d)) = true := by simpa using hxd
        simp [List.filter_cons, hx, htl]
      · have hx : ((x.2.total_duration == d)) = false := by simpa using hxd
        rw [if_neg hxd]
        simp [List.filter_cons, hx]
    · rw [if_neg hc]
      by_cases hhd : hd.2.total_duration = d
      · have hh : ((hd.2.total_duration == d)) = true := by simpa using hhd
        by_cases hxd : x.2.total_duration = d
        · rw [if_pos hxd]
          simp only [List.filter_cons, hh, if_true, ih h.2, if_pos hxd,
            List.cons_append]
        · rw [if_neg hxd]
          simp only [List.filter_cons, hh, if_true, ih h.2, if_neg hxd]
      · have hh : ((hd.2.total_duration == d)) = false := by simpa using hhd
        by_cases hxd : x.2.total_duration = d
        · rw [if_pos hxd]
          simp only [List.filter_cons, hh, Bool.false_eq_true, if_false,
            ih h.2, if_pos hxd]
        · rw [if_neg hxd]
          simp only [List.filter_cons, hh, Bool.false_eq_true, if_false,
            ih h.2, if_neg hxd]

theorem foldl_insortDesc_spec (d : Int) :
    ∀ (l acc : List (String × NameStats)),
      acc.Pairwise (fun a b => b.2.total_duration ≤ a.2.total_duration) →
      ((l.foldl (fun acc x => insortDesc x acc) acc).Pairwise
        (fun a b => b.2.total_duration ≤ a.2.total_duration)) ∧
      ((l.foldl (fun acc x => insortDesc x acc) acc).filter
          (fun kv => kv.2.total_duration == d) =
        acc.filter (fun kv => kv.2.total_duration == d) ++
          l.filter (fun kv => kv.2.total_duration == d)) := by
  intro l
  induction l with
  | nil => intro acc h; exact ⟨h, by simp⟩
  | cons x xs ih =>
    intro acc h
    rw [List.foldl_cons]
    obtain ⟨ih1, ih2⟩ := ih (insortDesc x acc) (insortDesc_pairwise x acc h)
    refine ⟨ih1, ?_⟩
    rw [ih2, insortDesc_filter_total x d acc h]
    by_cases hxd : x.2.total_duration = d
    · have hx : ((x.2.total_duration == d)) = true := by simpa using hxd
      rw [if_pos hxd]
      simp [List.filter_cons, hx]
    · have hx : ((x.2.total_duration == d)) = false := by simpa using hxd
      rw [if_neg hxd]
      simp [List.filter_cons, hx]

end Gui

/-- Claim C9 (amended): the sorted_processes listing of generate_statistics
is ordered descending by total_duration, and identities with equal
total_duration appear in the order of their first appearance in the
aggregated stats (the Python sort is stable) — NOT in ascending name order,
see the counterexample. -/
theorem stats_sorted_desc_stable (h : List Gui.Record) :
    ((Gui.sorted_processes h).Pairwise
      (fun a b => b.2.total_duration ≤ a.2.total_duration)) ∧
    (∀ d : Int,
      (Gui.sorted_processes h).filter (fun kv => kv.2.total_duration == d) =
        (Gui.process_stats h).filter (fun kv => kv.2.total_duration == d)) := by
  constructor
  · exact (Gui.foldl_insortDesc_spec 0 (Gui.process_stats h) [] (by simp)).1
  · intro d
    have := (Gui.foldl_insortDesc_spec d (Gui.process_stats h) [] (by simp)).2
    simpa [Gui.sorted_processes] using this

/-- Claim C9 (counterexample): two records of equal duration, first for name
b then for name a, sort to b before a — equal totals appear in first-seen
order, not ascending name order (a would have to precede b). -/
theorem stats_ties_not_name_ascending :
    Gui.sorted_processes [⟨"b", 0, 10, 5, 1⟩, ⟨"a", 0, 10, 5, 2⟩] =
      [("b", ⟨1, 5, 0, 10⟩), ("a", ⟨1, 5, 0, 10⟩)] ∧
    strLexLt "b" "a" = false ∧
    ¬ ([("b", (⟨1, 5, 0, 10⟩ : Gui.NameStats)),
        ("a", ⟨1, 5, 0, 10⟩)].Pairwise
      (fun a b => a.2.total_duration > b.2.total_duration ∨
        (a.2.total_duration = b.2.total_duration ∧ strLexLt a.1 b.1 = true))) := by
  refine ⟨rfl, rfl, ?_⟩
  intro hp
  rw [List.pairwise_cons] at hp
  have := hp.1 ("a", ⟨1, 5, 0, 10⟩) (by simp)
  rcases this with hgt | ⟨_, hlt⟩
  · exact lt_irrefl _ hgt
  · cases hlt
